import Mathlib

/-!
# NovaLib `FormatUtil`: a shallow embedding and its verified properties

The C++ header `src/cpp/FormatUtil.hpp` (class `FormatUtil`, namespace `nova.FormatUtil`
here) and the free functions of `src/cpp/format_util.hpp` (namespace `nova` here) are
embedded as pure Lean functions.

* A `std::string` is a `List Char` (`Str`).
* A `std::ostream` that writes at the end of its content, in the default formatting
  state but for `boolalpha`, is the text written so far together with that flag (`OStream`).
* `operator<<` of a value depends on the value and on the stream's flags only:
  a type is `Printable` when it has such a representation. A variadic argument
  pack is a list of type-erased printable values (`Arg`).
* A container is the list of its elements in iteration order; an iterator is the
  suffix of elements not yet visited, so the end iterator is `[]` and reading
  through it is undefined (`none`).
* `std::sort` is a library primitive: it is a parameter of `to_map_string`, and
  what the C++ standard promises of it is `StdSortContract`. One implementation of it,
  that of GNU libstdc++, is embedded in the namespace `libstdcxx`.
* A stream that the caller supplies in another state (put position before the end of its
  content, numbers in base sixteen) is a `Sink`.
-/

/-! ### `std::sort` as implemented by GNU libstdc++ (`bits/stl_algo.h`, `bits/stl_heap.h`)

A range is the list of the vector's elements; an iterator is a position in it. Each
function returns the range as the call leaves it. -/

namespace libstdcxx

/-- The comparison `comp(i, j)` of two iterators: positions `i` and `j` of the range. -/
def comp_iter {α : Type} (comp : α → α → Bool) (l : List α) (i j : Nat) : Bool :=
  match l[i]?, l[j]? with
  | some a, some b => comp a b
  | _, _ => false

/-- The effect of `std::iter_swap(i, j)`. -/
def iter_swap {α : Type} (l : List α) (i j : Nat) : List α :=
  match l[i]?, l[j]? with
  | some a, some b => (l.set i b).set j a
  | _, _ => l

/-- Embedding of `std::__move_median_to_first`. -/
def __move_median_to_first {α : Type} (comp : α → α → Bool) (l : List α)
    (result a b c : Nat) : List α :=
  if comp_iter comp l a b then
    if comp_iter comp l b c then iter_swap l result b
    else if comp_iter comp l a c then iter_swap l result c
    else iter_swap l result a
  else if comp_iter comp l a c then iter_swap l result a
  else if comp_iter comp l b c then iter_swap l result c
  else iter_swap l result b

/-- The loop of `std::__unguarded_linear_insert`, from position `last` downwards. The
source does not test for the start of the range (an element not greater than `val` lies
before); position `0` ends the loop here. -/
def __unguarded_linear_insert_loop {α : Type} (comp : α → α → Bool) (val : α) :
    List α → Nat → List α
  | l, 0 => l.set 0 val
  | l, next + 1 =>
    match l[next]? with
    | some x =>
      if comp val x then
        __unguarded_linear_insert_loop comp val (l.set (next + 1) x) next
      else
        l.set (next + 1) val
    | none => l.set (next + 1) val

/-- Embedding of `std::__unguarded_linear_insert`. -/
def __unguarded_linear_insert {α : Type} (comp : α → α → Bool) (l : List α) (last : Nat) :
    List α :=
  match l[last]? with
  | some val => __unguarded_linear_insert_loop comp val l last
  | none => l

/-- Embedding of `std::__insertion_sort`. -/
def __insertion_sort {α : Type} (comp : α → α → Bool) (l : List α) (first last : Nat) :
    List α :=
  if first = last then l
  else
    (List.range' (first + 1) (last - (first + 1))).foldl
      (fun l i =>
        if comp_iter comp l i first then
          match l[i]? with
          | some val =>
            (l.take (first + 1) ++ (l.drop first).take (i - first) ++ l.drop (i + 1)).set
              first val
          | none => l
        else
          __unguarded_linear_insert comp l i) l

/-- Embedding of `std::__unguarded_insertion_sort`. -/
def __unguarded_insertion_sort {α : Type} (comp : α → α → Bool) (l : List α)
    (first last : Nat) : List α :=
  (List.range' first (last - first)).foldl (fun l i => __unguarded_linear_insert comp l i) l

/-- The constant `_S_threshold`. -/
def _S_threshold : Nat := 16

/-- Embedding of `std::__final_insertion_sort`. -/
def __final_insertion_sort {α : Type} (comp : α → α → Bool) (l : List α) (first last : Nat) :
    List α :=
  if last - first > _S_threshold then
    __unguarded_insertion_sort comp (__insertion_sort comp l first (first + _S_threshold))
      (first + _S_threshold) last
  else
    __insertion_sort comp l first last

/-- The loop `while (comp(first, pivot)) ++first;` of `std::__unguarded_partition`. -/
def partition_scan_up {α : Type} (comp : α → α → Bool) (l : List α) (pivot : Nat) :
    Nat → Nat → Nat
  | 0, first => first
  | fuel + 1, first =>
    if comp_iter comp l first pivot then partition_scan_up comp l pivot fuel (first + 1)
    else first

/-- The loop `while (comp(pivot, last)) --last;` of `std::__unguarded_partition`. -/
def partition_scan_down {α : Type} (comp : α → α → Bool) (l : List α) (pivot : Nat) :
    Nat → Nat
  | 0 => 0
  | last + 1 =>
    if comp_iter comp l pivot (last + 1) then partition_scan_down comp l pivot last
    else last + 1

/-- Embedding of `std::__unguarded_partition`: the cut position and the range. The first
argument bounds the number of iterations of the outer loop. -/
def __unguarded_partition {α : Type} (comp : α → α → Bool) :
    Nat → List α → Nat → Nat → Nat → Nat × List α
  | 0, l, first, _, _ => (first, l)
  | fuel + 1, l, first, last, pivot =>
    let first := partition_scan_up comp l pivot l.length first
    let last := partition_scan_down comp l pivot (last - 1)
    if !(first < last) then (first, l)
    else __unguarded_partition comp fuel (iter_swap l first last) (first + 1) last pivot

/-- Embedding of `std::__unguarded_partition_pivot`. -/
def __unguarded_partition_pivot {α : Type} (comp : α → α → Bool) (l : List α)
    (first last : Nat) : Nat × List α :=
  let mid := first + (last - first) / 2
  let l := __move_median_to_first comp l first (first + 1) mid (last - 1)
  __unguarded_partition comp l.length l (first + 1) last first

/-- Embedding of `std::__push_heap`; the comparison is `comp(*(first + parent), value)`.
The first argument bounds the number of iterations. -/
def __push_heap {α : Type} (comp : α → α → Bool) (value : α) (first topIndex : Nat) :
    Nat → List α → Nat → List α
  | 0, l, holeIndex => l.set (first + holeIndex) value
  | fuel + 1, l, holeIndex =>
    let parent := (holeIndex - 1) / 2
    match l[first + parent]? with
    | some p =>
      if holeIndex > topIndex && comp p value then
        __push_heap comp value first topIndex fuel (l.set (first + holeIndex) p) parent
      else
        l.set (first + holeIndex) value
    | none => l.set (first + holeIndex) value

/-- The `while` loop of `std::__adjust_heap`: the range and the hole index on exit (the
hole index and `secondChild` coincide at the head of the loop and on exit). -/
def __adjust_heap_loop {α : Type} (comp : α → α → Bool) (first len : Nat) :
    Nat → List α → Nat → List α × Nat
  | 0, l, holeIndex => (l, holeIndex)
  | fuel + 1, l, holeIndex =>
    if holeIndex < (len - 1) / 2 then
      let secondChild := 2 * (holeIndex + 1)
      let secondChild :=
        if comp_iter comp l (first + secondChild) (first + (secondChild - 1)) then
          secondChild - 1
        else secondChild
      match l[first + secondChild]? with
      | some x =>
        __adjust_heap_loop comp first len fuel (l.set (first + holeIndex) x) secondChild
      | none => (l, holeIndex)
    else (l, holeIndex)

/-- Embedding of `std::__adjust_heap`. -/
def __adjust_heap {α : Type} (comp : α → α → Bool) (l : List α) (first holeIndex len : Nat)
    (value : α) : List α :=
  let topIndex := holeIndex
  let r := __adjust_heap_loop comp first len len l holeIndex
  let r :=
    if len % 2 = 0 && r.2 = (len - 2) / 2 then
      let secondChild := 2 * (r.2 + 1)
      match r.1[first + (secondChild - 1)]? with
      | some x => (r.1.set (first + r.2) x, secondChild - 1)
      | none => r
    else r
  __push_heap comp value first topIndex len r.1 r.2

/-- Embedding of `std::__pop_heap`. -/
def __pop_heap {α : Type} (comp : α → α → Bool) (l : List α) (first last result : Nat) :
    List α :=
  match l[result]?, l[first]? with
  | some value, some top => __adjust_heap comp (l.set result top) first 0 (last - first) value
  | _, _ => l

/-- The loop of `std::__make_heap`, from `parent` down to `0`. -/
def __make_heap_loop {α : Type} (comp : α → α → Bool) (first len : Nat) :
    List α → Nat → List α
  | l, 0 =>
    match l[first]? with
    | some value => __adjust_heap comp l first 0 len value
    | none => l
  | l, parent + 1 =>
    match l[first + (parent + 1)]? with
    | some value =>
      __make_heap_loop comp first len (__adjust_heap comp l first (parent + 1) len value)
        parent
    | none => l

/-- Embedding of `std::__make_heap`. -/
def __make_heap {α : Type} (comp : α → α → Bool) (l : List α) (first last : Nat) : List α :=
  if last - first < 2 then l
  else __make_heap_loop comp first (last - first) l ((last - first - 2) / 2)

/-- Embedding of `std::__sort_heap`; the numeric argument is `last - first`. -/
def __sort_heap {α : Type} (comp : α → α → Bool) (first : Nat) : List α → Nat → List α
  | l, 0 => l
  | l, n + 1 =>
    if n + 1 > 1 then
      __sort_heap comp first (__pop_heap comp l first (first + n) (first + n)) n
    else l

/-- Embedding of `std::__heap_select`. -/
def __heap_select {α : Type} (comp : α → α → Bool) (l : List α) (first middle last : Nat) :
    List α :=
  (List.range' middle (last - middle)).foldl
    (fun l i => if comp_iter comp l i first then __pop_heap comp l first middle i else l)
    (__make_heap comp l first middle)

/-- Embedding of `std::__partial_sort`. -/
def __partial_sort {α : Type} (comp : α → α → Bool) (l : List α) (first middle last : Nat) :
    List α :=
  __sort_heap comp first (__heap_select comp l first middle last) (middle - first)

/-- Embedding of `std::__introsort_loop`; the first argument is `depth_limit`. One pass of
the `while` loop is one call: the recursive call on `[cut, last)`, then the next pass on
`[first, cut)` with the decremented limit. -/
def __introsort_loop {α : Type} (comp : α → α → Bool) :
    Nat → List α → Nat → Nat → List α
  | 0, l, first, last =>
    if last - first > _S_threshold then __partial_sort comp l first last last else l
  | depth_limit + 1, l, first, last =>
    if last - first > _S_threshold then
      let r := __unguarded_partition_pivot comp l first last
      let l := __introsort_loop comp depth_limit r.2 r.1 last
      __introsort_loop comp depth_limit l first r.1
    else l

/-- The loop computing `std::__lg`. -/
def __lg_loop : Nat → Nat → Nat
  | 0, _ => 0
  | fuel + 1, n => if n ≥ 2 then __lg_loop fuel (n / 2) + 1 else 0

/-- Embedding of `std::__lg`: the floor of the binary logarithm. -/
def __lg (n : Nat) : Nat := __lg_loop n n

/-- Embedding of `std::__sort`. -/
def __sort {α : Type} (comp : α → α → Bool) (l : List α) (first last : Nat) : List α :=
  if first ≠ last then
    __final_insertion_sort comp
      (__introsort_loop comp (__lg (last - first) * 2) l first last) first last
  else l

/-- The call `std::sort(v.begin(), v.end(), comp)` on a vector holding `v`. -/
def sort {α : Type} (comp : α → α → Bool) (v : List α) : List α :=
  __sort comp v 0 v.length

end libstdcxx

namespace nova

/-- Text: the characters of a `std::string`. -/
abbrev Str := List Char

/-- An output stream that writes at the end of its content and is in the default
formatting state but for `boolalpha`: the characters written so far and that flag. Every
`std::ostringstream` the functions construct is one; so is standard output. -/
structure OStream where
  buf : Str
  boolalpha : Bool
deriving DecidableEq

/-- The text that `operator<<` inserts for a value, given the stream's `boolalpha` flag. -/
class Printable (α : Type) where
  repr : Bool → α → Str

/-- The words `std::boolalpha` selects. -/
def boolWord (b : Bool) : Str :=
  if b then ['t', 'r', 'u', 'e'] else ['f', 'a', 'l', 's', 'e']

/-- The numeric form of a boolean, used when `boolalpha` is clear. -/
def boolDigit (b : Bool) : Str :=
  if b then ['1'] else ['0']

instance : Printable Bool where
  repr flag b := if flag then boolWord b else boolDigit b

instance : Printable Nat where
  repr _ n := (Nat.repr n).toList

instance : Printable Int where
  repr _ n := (Int.repr n).toList

instance : Printable Char where
  repr _ c := [c]

instance : Printable Str where
  repr _ s := s

/-- One element of a variadic argument pack: a value of any streamable type,
kept as the text `operator<<` inserts for it under either setting of `boolalpha`. -/
structure Arg where
  repr : Bool → Str

instance : Printable Arg where
  repr flag a := a.repr flag

/-- Erase the type of a printable value. -/
def Arg.of {α : Type} [Printable α] (x : α) : Arg :=
  ⟨fun flag => Printable.repr flag x⟩

namespace OStream

/-- A freshly constructed `std::ostringstream`: empty, default flags. -/
def fresh : OStream := ⟨[], false⟩

/-- The effect of `o << std::boolalpha`. -/
def setBoolalpha (o : OStream) : OStream := { o with boolalpha := true }

/-- The effect of `o << s` for a string or string view. -/
def write (o : OStream) (s : Str) : OStream := { o with buf := o.buf ++ s }

/-- The effect of `o << x` for a value of a streamable type. -/
def put {α : Type} [Printable α] (o : OStream) (x : α) : OStream :=
  o.write (Printable.repr o.boolalpha x)

/-- The effect of `o << std::endl`: a line break (the flush is not observable). -/
def endl (o : OStream) : OStream := o.write ['\n']

/-- The result of `o.str()`. -/
def str (o : OStream) : Str := o.buf

end OStream

/-- A stream supplied by the caller, in a state of the caller's choosing: its content, its
put position (where the next character is written), the `boolalpha` flag and whether its
base field is `std::hex` rather than `std::dec`. A `std::ostringstream` constructed from a
string has that string as content and put position `0`. -/
structure Sink where
  content : Str
  pos : Nat
  boolalpha : Bool
  hex : Bool
deriving DecidableEq

/-- An argument as a `Sink` sees it: the text `operator<<` inserts for it, given the
stream's `boolalpha` flag and whether its base field is `std::hex`. -/
structure SinkArg where
  repr : Bool → Bool → Str

/-- An unsigned integer argument. -/
def SinkArg.ofNat (n : Nat) : SinkArg :=
  ⟨fun _ hex => if hex then Nat.toDigits 16 n else Nat.toDigits 10 n⟩

/-- A string argument. -/
def SinkArg.ofStr (s : Str) : SinkArg :=
  ⟨fun _ _ => s⟩

/-- A boolean argument. -/
def SinkArg.ofBool (b : Bool) : SinkArg :=
  ⟨fun flag _ => if flag then boolWord b else boolDigit b⟩

/-- The same argument as a stream in the default (decimal) base sees it. -/
def SinkArg.toArg (a : SinkArg) : Arg :=
  ⟨fun flag => a.repr flag false⟩

namespace Sink

/-- The effect of `o << s` for a string or string view: the characters are stored from the
put position on, over what the content holds there, and the put position moves past them. -/
def write (o : Sink) (s : Str) : Sink :=
  { o with
    content := o.content.take o.pos ++ s ++ o.content.drop (o.pos + s.length)
    pos := o.pos + s.length }

/-- The effect of `o << x` for an argument. -/
def put (o : Sink) (x : SinkArg) : Sink :=
  o.write (x.repr o.boolalpha o.hex)

/-- The stream of the same content and flag that writes at its end. -/
def toOStream (o : Sink) : OStream := ⟨o.content, o.boolalpha⟩

end Sink

/-- The placeholder token `"{}"`. -/
def token : Str := ['{', '}']

/-- The result of `s.find(pat)`: the least index at which `pat` occurs in `s`,
or `none` for `std::string::npos`. -/
def str_find (pat : Str) : Str → Option Nat
  | [] => if pat.isPrefixOf [] then some 0 else none
  | c :: t => if pat.isPrefixOf (c :: t) then some 0 else (str_find pat t).map (· + 1)

/-- What the C++ standard promises of `std::sort(first, last, comp)`: the range
is rearranged (a permutation) so that no element is `comp`-less than an earlier
one. The relative order of equivalent elements is not part of the promise. -/
def StdSortContract {α : Type} (sort : (α → α → Bool) → List α → List α)
    (comp : α → α → Bool) : Prop :=
  ∀ l, (sort comp l).Perm l ∧ (sort comp l).Pairwise (fun a b => comp b a = false)

/-- A conforming `std::sort` that keeps equivalent elements in input order:
straight insertion sort. -/
def insertion_sort {α : Type} (comp : α → α → Bool) (l : List α) : List α :=
  List.insertionSort (fun a b => comp b a = false) l

namespace FormatUtil

/-- The loop of `to_joined_string`: `o` is the stream, the list is the iterator
`it` (the elements from `it` to `end`). Reading `*it` at the end position is undefined
behaviour: the language defines no result for it, and `none` stands for "no result is
defined", not for a failure the source detects or reports. -/
def to_joined_string_loop {α : Type} [Printable α] (delimiter : Str) :
    OStream → List α → Option Str
  | _, [] => none
  | o, x :: it =>
    let o := o.put x
    if !it.isEmpty then
      to_joined_string_loop delimiter (o.write delimiter) it
    else
      some o.str

/-- Embedding of `FormatUtil::to_joined_string`. -/
def to_joined_string {α : Type} [Printable α] (container : List α)
    (delimiter : Str := [',', ' ']) : Option Str :=
  let o := OStream.fresh.setBoolalpha
  to_joined_string_loop delimiter o container

/-- Embedding of `FormatUtil::to_header_string`. -/
def to_header_string {α : Type} [Printable α] (header : Str) (container : List α)
    (indent : Str := [' ', ' ']) : Str :=
  let o := OStream.fresh.setBoolalpha
  let o := o.write header
  let o := container.foldl (fun o item => (o.endl.write indent).put item) o
  o.str

/-- Embedding of `FormatUtil::to_unsorted_map_string`; each element of the map
view is what `it->first` and `it->second` are read from. -/
def to_unsorted_map_string {K V : Type} [Printable K] [Printable V] (header : Str)
    (map : List (K × V)) (indent : Str := [' ', ' ']) : Str :=
  let o := OStream.fresh.setBoolalpha
  let o := o.write header
  let o := map.foldl
    (fun o it => (((o.endl.write indent).put it.1).write [':', ' ']).put it.2) o
  o.str

/-- The comparison passed to `std::sort` in `to_map_string`: `x->first < y->first`. -/
def key_less {K V : Type} [LinearOrder K] (x y : K × V) : Bool :=
  decide (x.1 < y.1)

/-- Embedding of `FormatUtil::to_map_string`. An iterator of the map view is
represented by the pair it points at; `sort` stands for `std::sort`. -/
def to_map_string {K V : Type} [LinearOrder K] [Printable K] [Printable V]
    (sort : (K × V → K × V → Bool) → List (K × V) → List (K × V))
    (header : Str) (map : List (K × V)) (indent : Str := [' ', ' ']) : Str :=
  let v := map.foldl (fun v iterator => v ++ [iterator]) []
  let v := sort key_less v
  let o := OStream.fresh.setBoolalpha
  let o := o.write header
  let o := v.foldl
    (fun o it => (((o.endl.write indent).put it.1).write [':', ' ']).put it.2) o
  o.str

/-- Embedding of `FormatUtil::_format_recursive`. The stream and the string `s`
are passed by reference in the source; the function returns both as they are
when the call returns. -/
def _format_recursive (output : OStream) (s : Str) (first : Arg) (tail : List Arg) :
    OStream × Str :=
  match str_find token s with
  | some next_split_index =>
    let output := (output.write (s.take next_split_index)).put first
    let s := s.drop (next_split_index + 2)
    match tail with
    | [] => (output.write s, s)
    | t :: ts =>
      let r := _format_recursive output s t ts
      (r.1.write r.2, r.2)
  | none => (output.write s, s)

/-- Embedding of `FormatUtil::format_to_string`. -/
def format_to_string (format : Str) (first : Arg) (tail : List Arg) : Str :=
  let o := OStream.fresh.setBoolalpha
  let r := _format_recursive o format first tail
  r.1.str

/-- Embedding of `FormatUtil::formatln_to_string`. -/
def formatln_to_string (format : Str) (first : Arg) (tail : List Arg) : Str :=
  let o := OStream.fresh.setBoolalpha
  let r := _format_recursive o format first tail
  r.1.endl.str

/-- Embedding of `FormatUtil::format_to`: the stream after the call. -/
def format_to (output : OStream) (format : Str) (first : Arg) (tail : List Arg) : OStream :=
  (_format_recursive output format first tail).1

/-- Embedding of `FormatUtil::formatln_to`: the stream after the call. -/
def formatln_to (output : OStream) (format : Str) (first : Arg) (tail : List Arg) : OStream :=
  (_format_recursive output format first tail).1.endl

/-- The control flow of `FormatUtil::_format_recursive` with a counter added: besides the
stream and the string it returns the number of nested self-invocations the call made. -/
def _format_recursive_depth (output : OStream) (s : Str) (first : Arg) (tail : List Arg) :
    (OStream × Str) × Nat :=
  match str_find token s with
  | some next_split_index =>
    let output := (output.write (s.take next_split_index)).put first
    let s := s.drop (next_split_index + 2)
    match tail with
    | [] => ((output.write s, s), 0)
    | t :: ts =>
      let r := _format_recursive_depth output s t ts
      ((r.1.1.write r.1.2, r.1.2), r.2 + 1)
  | none => ((output.write s, s), 0)

/-- Embedding of `FormatUtil::_format_recursive` when `output` is a stream in a state of the
caller's choosing (a `Sink`). -/
def _format_recursive_sink (output : Sink) (s : Str) (first : SinkArg)
    (tail : List SinkArg) : Sink × Str :=
  match str_find token s with
  | some next_split_index =>
    let output := (output.write (s.take next_split_index)).put first
    let s := s.drop (next_split_index + 2)
    match tail with
    | [] => (output.write s, s)
    | t :: ts =>
      let r := _format_recursive_sink output s t ts
      (r.1.write r.2, r.2)
  | none => (output.write s, s)

/-- Embedding of `FormatUtil::format_to` when `output` is a `Sink`: the stream after the
call. -/
def format_to_sink (output : Sink) (format : Str) (first : SinkArg) (tail : List SinkArg) :
    Sink :=
  (_format_recursive_sink output format first tail).1

end FormatUtil

/-! ### The free functions of `src/cpp/format_util.hpp` -/

/-- The loop of `nova::to_comma_string`; the list is the iterator `it`, and `none` stands
for "no result is defined" (the read of `*it` at the end position). -/
def to_comma_string_loop {α : Type} [Printable α] (separator : Str) :
    OStream → List α → Option Str
  | _, [] => none
  | o, x :: it =>
    let o := o.put x
    if !it.isEmpty then
      to_comma_string_loop separator (o.write separator) it
    else
      some o.str

/-- Embedding of `nova::to_comma_string`. -/
def to_comma_string {α : Type} [Printable α] (container : List α)
    (separator : Str := [',', ' ']) : Option Str :=
  let o := OStream.fresh
  to_comma_string_loop separator o container

/-- Embedding of `nova::to_header_string`. -/
def to_header_string {α : Type} [Printable α] (header : Str) (container : List α)
    (indent : Str := [' ', ' ']) : Str :=
  let o := OStream.fresh
  let o := o.write header
  let o := container.foldl (fun o item => (o.endl.write indent).put item) o
  o.str

/-- Embedding of `nova::to_unsorted_map_string`. -/
def to_unsorted_map_string {K V : Type} [Printable K] [Printable V] (header : Str)
    (map : List (K × V)) (indent : Str := [' ', ' ']) : Str :=
  let o := OStream.fresh
  let o := o.write header
  let o := map.foldl
    (fun o it => (((o.endl.write indent).put it.1).write [':', ' ']).put it.2) o
  o.str

/-- Embedding of `nova::to_map_string`; `sort` stands for `std::sort`. -/
def to_map_string {K V : Type} [LinearOrder K] [Printable K] [Printable V]
    (sort : (K × V → K × V → Bool) → List (K × V) → List (K × V))
    (header : Str) (map : List (K × V)) (indent : Str := [' ', ' ']) : Str :=
  let v := map.foldl (fun v iterator => v ++ [iterator]) []
  let v := sort FormatUtil.key_less v
  let o := OStream.fresh
  let o := o.write header
  let o := v.foldl
    (fun o it => (((o.endl.write indent).put it.1).write [':', ' ']).put it.2) o
  o.str

/-- Embedding of `nova::_format_recursive` (anonymous namespace of `format_util.hpp`). -/
def _format_recursive (output : OStream) (s : Str) (first : Arg) (tail : List Arg) :
    OStream × Str :=
  match str_find token s with
  | some next_split_index =>
    let output := (output.write (s.take next_split_index)).put first
    let s := s.drop (next_split_index + 2)
    match tail with
    | [] => (output.write s, s)
    | t :: ts =>
      let r := _format_recursive output s t ts
      (r.1.write r.2, r.2)
  | none => (output.write s, s)

/-- Embedding of `nova::format_to_string`. -/
def format_to_string (format : Str) (first : Arg) (tail : List Arg) : Str :=
  let o := OStream.fresh
  let r := _format_recursive o format first tail
  r.1.str

/-- Embedding of `nova::formatln_to_string`. -/
def formatln_to_string (format : Str) (first : Arg) (tail : List Arg) : Str :=
  let o := OStream.fresh
  let r := _format_recursive o format first tail
  r.1.endl.str

/-! ### Vocabulary of the statements -/

/-- The number of placeholder tokens in a template: the number of positions at which
`{}` starts. Two occurrences of `{}` cannot overlap, so this is also the number of tokens
met when scanning left to right. -/
def count_tokens : Str → Nat
  | [] => 0
  | c :: t => (if token.isPrefixOf (c :: t) then 1 else 0) + count_tokens t

/-- The template cut at its first `m` tokens, found left to right, each search starting
just after the previous token: the literal texts before each of them, and the text after
the last of them. -/
def split_tokens : Nat → Str → List Str × Str
  | 0, s => ([], s)
  | m + 1, s =>
    match str_find token s with
    | none => ([], s)
    | some i =>
      let rest := split_tokens m (s.drop (i + 2))
      (s.take i :: rest.1, rest.2)

/-- The text `seg₁ repr(a₁) seg₂ repr(a₂) …`, pairing segments and arguments in order;
`flag` is the stream's `boolalpha`. -/
def interleave (flag : Bool) (segs : List Str) (args : List Arg) : Str :=
  (List.zipWith (fun seg a => seg ++ a.repr flag) segs args).flatten

/-- The text `r` written `c` times. -/
def copies (c : Nat) (r : Str) : Str :=
  (List.replicate c r).flatten

end nova

/-! ## Auxiliary lemmas -/

namespace nova

/-- `str_find` reports `npos` exactly when the pattern does not occur. -/
theorem str_find_eq_none_iff (pat s : Str) : str_find pat s = none ↔ ¬ pat <:+: s := by
  induction s with
  | nil =>
    cases pat <;> simp [str_find, List.isPrefixOf]
  | cons c t ih =>
    rw [str_find, List.infix_cons_iff]
    by_cases h : pat.isPrefixOf (c :: t) = true
    · simp [h, List.isPrefixOf_iff_prefix.mp h]
    · have h2 : ¬ pat <+: c :: t := fun hp => h (List.isPrefixOf_iff_prefix.mpr hp)
      simp [h, h2, ih]

/-- Length of `r₁ d r₂ d … d rₙ`: the pieces plus `n - 1` delimiters. -/
theorem intercalate_length (d : Str) (x : Str) (rs : List Str) :
    (d.intercalate (x :: rs)).length =
      ((x :: rs).map List.length).sum + rs.length * d.length := by
  induction rs generalizing x with
  | nil => simp [List.intercalate]
  | cons y ys ih =>
    have h := ih y
    simp [List.intercalate, List.intersperse] at h ⊢
    rw [h]; ring

/-- A loop whose body appends one piece of text per element appends the pieces in order
and leaves the flag alone. -/
theorem foldl_lines {α : Type} (line : Bool → α → Str) (step : OStream → α → OStream)
    (hstep : ∀ o x, step o x = o.write (line o.boolalpha x)) (l : List α) (o : OStream) :
    l.foldl step o = o.write (l.flatMap (line o.boolalpha)) := by
  induction l generalizing o with
  | nil => simp [OStream.write]
  | cons x xs ih =>
    simp [List.foldl_cons, ih, hstep, OStream.write]

/-- Pushing every iterator onto the back of a vector copies the sequence. -/
theorem push_back_all {α : Type} (l acc : List α) :
    l.foldl (fun v iterator => v ++ [iterator]) acc = acc ++ l := by
  induction l generalizing acc with
  | nil => simp
  | cons x xs ih => simp [ih]

namespace FormatUtil

theorem to_joined_string_loop_cons {α : Type} [Printable α] (d : Str) (x : α) (it : List α)
    (o : OStream) :
    to_joined_string_loop d o (x :: it) =
      some (o.buf ++ d.intercalate ((x :: it).map (Printable.repr o.boolalpha))) := by
  induction it generalizing x o with
  | nil => simp [to_joined_string_loop, OStream.put, OStream.write, OStream.str, List.intercalate]
  | cons y ys ih =>
    rw [to_joined_string_loop]
    simp only [List.isEmpty_cons, Bool.not_false, if_true]
    rw [ih]
    simp [OStream.put, OStream.write, List.intercalate, List.intersperse]

theorem to_joined_string_cons {α : Type} [Printable α] (x : α) (it : List α) (delimiter : Str) :
    to_joined_string (x :: it) delimiter =
      some (delimiter.intercalate ((x :: it).map (Printable.repr true))) := by
  simp [to_joined_string, to_joined_string_loop_cons, OStream.fresh, OStream.setBoolalpha]

theorem to_header_string_eq {α : Type} [Printable α] (header indent : Str) (container : List α) :
    to_header_string header container indent =
      header ++ container.flatMap (fun e => '\n' :: (indent ++ Printable.repr true e)) := by
  unfold to_header_string
  simp only []
  rw [foldl_lines (fun flag e => '\n' :: (indent ++ Printable.repr flag e))]
  · simp [OStream.write, OStream.str, OStream.fresh, OStream.setBoolalpha]
  · intro o x; simp [OStream.put, OStream.write, OStream.endl]

theorem to_unsorted_map_string_eq {K V : Type} [Printable K] [Printable V]
    (header indent : Str) (map : List (K × V)) :
    to_unsorted_map_string header map indent =
      header ++ map.flatMap (fun p =>
        '\n' :: (indent ++ (Printable.repr true p.1 ++ (':' :: ' ' :: Printable.repr true p.2)))) := by
  unfold to_unsorted_map_string
  simp only []
  rw [foldl_lines (fun flag (p : K × V) =>
    '\n' :: (indent ++ (Printable.repr flag p.1 ++ (':' :: ' ' :: Printable.repr flag p.2))))]
  · simp [OStream.write, OStream.str, OStream.fresh, OStream.setBoolalpha]
  · intro o x; simp [OStream.put, OStream.write, OStream.endl]

theorem to_map_string_eq {K V : Type} [LinearOrder K] [Printable K] [Printable V]
    (sort : (K × V → K × V → Bool) → List (K × V) → List (K × V))
    (header indent : Str) (map : List (K × V)) :
    to_map_string sort header map indent =
      header ++ (sort key_less map).flatMap (fun p =>
        '\n' :: (indent ++ (Printable.repr true p.1 ++ (':' :: ' ' :: Printable.repr true p.2)))) := by
  unfold to_map_string
  simp only []
  rw [foldl_lines (fun flag (p : K × V) =>
    '\n' :: (indent ++ (Printable.repr flag p.1 ++ (':' :: ' ' :: Printable.repr flag p.2))))]
  · simp [push_back_all, OStream.write, OStream.str, OStream.fresh, OStream.setBoolalpha]
  · intro o x; simp [OStream.put, OStream.write, OStream.endl]

theorem key_less_eq_false {K V : Type} [LinearOrder K] (a b : K × V) :
    key_less b a = false ↔ a.1 ≤ b.1 := by
  simp [key_less]

/-- Two key-sorted arrangements of the same pairs coincide when no key repeats. -/
theorem sorted_view_unique {K V : Type} [LinearOrder K] (s₁ s₂ : List (K × V))
    (hperm : s₁.Perm s₂) (hkeys : (s₁.map Prod.fst).Nodup)
    (h₁ : s₁.Pairwise (fun a b => key_less b a = false))
    (h₂ : s₂.Pairwise (fun a b => key_less b a = false)) : s₁ = s₂ := by
  have hkeys₂ : (s₂.map Prod.fst).Nodup := (hperm.map Prod.fst).nodup_iff.mp hkeys
  have strict : ∀ s : List (K × V), (s.map Prod.fst).Nodup →
      s.Pairwise (fun a b => key_less b a = false) → s.Pairwise (fun a b => a.1 < b.1) := by
    intro s hn hs
    have hne : s.Pairwise (fun a b => a.1 ≠ b.1) := List.pairwise_map.mp hn
    exact (hs.and hne).imp (fun h => lt_of_le_of_ne ((key_less_eq_false _ _).mp h.1) h.2)
  haveI : IsAntisymm (K × V) (fun a b => a.1 < b.1) :=
    ⟨fun a b hab hba => absurd hab (not_lt_of_gt hba)⟩
  exact List.eq_of_perm_of_sorted hperm (strict s₁ hkeys h₁) (strict s₂ hkeys₂ h₂)

theorem insertion_sort_conforms {K V : Type} [LinearOrder K] :
    StdSortContract insertion_sort (key_less : K × V → K × V → Bool) := by
  intro l
  haveI : IsTotal (K × V) (fun a b => key_less b a = false) :=
    ⟨fun a b => by simp only [key_less_eq_false]; exact le_total a.1 b.1⟩
  haveI : IsTrans (K × V) (fun a b => key_less b a = false) :=
    ⟨fun a b c hab hbc => by
      simp only [key_less_eq_false] at *; exact le_trans hab hbc⟩
  exact ⟨List.perm_insertionSort _ l, List.sorted_insertionSort _ l⟩

/-- When the string holds no token, one call writes the string and leaves it as it was. -/
theorem _format_recursive_of_none (output : OStream) (s : Str) (first : Arg) (tail : List Arg)
    (h : str_find token s = none) :
    _format_recursive output s first tail = (output.write s, s) := by
  cases tail <;> simp [_format_recursive, h]

/-- The template `"{}"` with a single argument: the argument is written, nothing else. -/
theorem _format_recursive_single (output : OStream) (first : Arg) :
    _format_recursive output token first [] = (output.put first, []) := by
  have h : str_find token token = some 0 := by decide
  simp [_format_recursive, h, OStream.write, OStream.put, token]

end FormatUtil

end nova

/-! ## The claims -/

namespace nova

namespace FormatUtil

/-- C1: evaluation of the formatter on a template with three tokens and two arguments.
The claim expects the first two tokens replaced and the rest of the template written
once, `x y {}`. The source writes the remaining template once per level of the recursion
on its way out, so the text after the second token, ` {}`, appears twice. -/
theorem format_to_string_repeats_remainder :
    format_to_string "{} {} {}".toList (Arg.of "x".toList) [Arg.of "y".toList] =
        "x y {} {}".toList ∧
      format_to_string "{} {} {}".toList (Arg.of "x".toList) [Arg.of "y".toList] ≠
        "x y {}".toList := by
  decide

/-- C2: evaluation of the formatter on a template with one token, once with two arguments
and once with one. The claim expects the second argument to have no effect; in the source
the extra argument adds a level of recursion, which writes the text after the token a
second time. -/
theorem format_to_string_extra_argument_changes_output :
    format_to_string "a{}b".toList (Arg.of "x".toList) [Arg.of "y".toList] = "axbb".toList ∧
      format_to_string "a{}b".toList (Arg.of "x".toList) [] = "axb".toList ∧
      format_to_string "a{}b".toList (Arg.of "x".toList) [Arg.of "y".toList] ≠
        format_to_string "a{}b".toList (Arg.of "x".toList) [] := by
  decide

/-- C3: a template in which the token `{}` does not occur is returned unchanged, whatever
the (non-empty) argument list. -/
theorem format_to_string_identity (t : Str) (first : Arg) (tail : List Arg)
    (h : ¬ token <:+: t) : format_to_string t first tail = t := by
  have hn : str_find token t = none := (str_find_eq_none_iff token t).mpr h
  simp [format_to_string, _format_recursive_of_none _ _ _ _ hn, OStream.write, OStream.str,
    OStream.fresh, OStream.setBoolalpha]

/-- Witness for C3: the template `hi` with the argument `ignored`. -/
theorem format_to_string_identity_witness :
    format_to_string "hi".toList (Arg.of "ignored".toList) [] = "hi".toList :=
  format_to_string_identity "hi".toList (Arg.of "ignored".toList) [] (by decide)

/-- C4: for a non-empty container, `to_joined_string` returns the elements' printable
representations in iteration order with the delimiter between consecutive elements and
none before the first or after the last; the length of the result accounts for exactly
`n - 1` delimiters. -/
theorem to_joined_string_spec {α : Type} [Printable α] (container : List α) (delimiter : Str)
    (h : container ≠ []) :
    to_joined_string container delimiter =
        some (delimiter.intercalate (container.map (Printable.repr true))) ∧
      (delimiter.intercalate (container.map (Printable.repr true))).length =
        (container.map (fun e => (Printable.repr true e).length)).sum +
          (container.length - 1) * delimiter.length := by
  cases container with
  | nil => exact absurd rfl h
  | cons x it =>
    constructor
    · exact to_joined_string_cons x it delimiter
    · rw [List.map_cons, intercalate_length]
      simp [List.map_map, Function.comp_def]

/-- Witness for C4: joining `[1, 2, 3]` and `[1]` with a comma and a space. -/
theorem to_joined_string_spec_witness :
    to_joined_string [1, 2, 3] ", ".toList = some "1, 2, 3".toList ∧
      to_joined_string [1] ", ".toList = some "1".toList :=
  ⟨(to_joined_string_spec [1, 2, 3] ", ".toList (by decide)).1,
   (to_joined_string_spec [1] ", ".toList (by decide)).1⟩

/-- C6: `to_header_string` returns the header followed, for each element in iteration
order, by a line break, the indent and the element's printable representation; for the
empty container the result is the header alone. -/
theorem to_header_string_spec {α : Type} [Printable α] (header indent : Str)
    (container : List α) :
    to_header_string header container indent =
        header ++ container.flatMap (fun e => '\n' :: (indent ++ Printable.repr true e)) ∧
      to_header_string header ([] : List α) indent = header ∧
      to_header_string "Items:".toList ([] : List α) = "Items:".toList := by
  refine ⟨to_header_string_eq header indent container, ?_, ?_⟩ <;>
    simp [to_header_string_eq]

/-- C7: canonical map rendering does not depend on the order in which the map view yields
its pairs. For any `std::sort` that meets the standard's contract, two map views holding
the same pairs, with pairwise distinct keys, give the same string. -/
theorem to_map_string_order_independent {K V : Type} [LinearOrder K] [Printable K]
    [Printable V] (sort : (K × V → K × V → Bool) → List (K × V) → List (K × V))
    (hsort : StdSortContract sort key_less)
    (header indent : Str) (m₁ m₂ : List (K × V))
    (hperm : m₁.Perm m₂) (hkeys : (m₁.map Prod.fst).Nodup) :
    to_map_string sort header m₁ indent = to_map_string sort header m₂ indent := by
  have hs : sort key_less m₁ = sort key_less m₂ := by
    apply sorted_view_unique
    · exact ((hsort m₁).1.trans hperm).trans (hsort m₂).1.symm
    · exact (((hsort m₁).1).map Prod.fst).nodup_iff.mpr hkeys
    · exact (hsort m₁).2
    · exact (hsort m₂).2
  rw [to_map_string_eq, to_map_string_eq, hs]

/-- Witness for C7: the pairs `b:2`, `a:1` in either order. -/
theorem to_map_string_order_independent_witness :
    to_map_string insertion_sort "M:".toList [('b', 2), ('a', 1)] "  ".toList =
        to_map_string insertion_sort "M:".toList [('a', 1), ('b', 2)] "  ".toList ∧
      to_map_string insertion_sort "M:".toList [('b', 2), ('a', 1)] "  ".toList =
        "M:\n  a: 1\n  b: 2".toList :=
  ⟨to_map_string_order_independent insertion_sort insertion_sort_conforms "M:".toList
      "  ".toList [('b', 2), ('a', 1)] [('a', 1), ('b', 2)] (by decide) (by decide),
   by decide⟩

set_option maxRecDepth 100000 in
/-- Counterexample for C8: with the `std::sort` of GNU libstdc++, a map view that yields
seventeen pairs of key `1` with the values `a` to `q`, in that order, is written by
`to_map_string` with the values in the order `i q p o n m l k j a h g f e d c b`: pairs of
equal keys do not keep the order in which the view yielded them. (Ranges of more than
sixteen elements are partitioned around a pivot, which swaps equal elements.) -/
theorem to_map_string_not_stable :
    to_map_string libstdcxx.sort "M:".toList
        [(1, 'a'), (1, 'b'), (1, 'c'), (1, 'd'), (1, 'e'), (1, 'f'), (1, 'g'), (1, 'h'),
          (1, 'i'), (1, 'j'), (1, 'k'), (1, 'l'), (1, 'm'), (1, 'n'), (1, 'o'), (1, 'p'),
          (1, 'q')] "  ".toList =
      ("M:\n  1: i\n  1: q\n  1: p\n  1: o\n  1: n\n  1: m\n  1: l\n  1: k\n  1: j" ++
        "\n  1: a\n  1: h\n  1: g\n  1: f\n  1: e\n  1: d\n  1: c\n  1: b").toList := by
  decide

/-- C8, amended: for any `std::sort` that meets the standard's contract, `to_map_string`
writes one line per element of a single sequence `v` that is a rearrangement of the pairs
the map view yielded, ordered by key, and in which, for every key `k`, the pairs with key
`k` are a rearrangement of the pairs with key `k` that the view yielded (none lost, none
added); their relative order is not fixed. -/
theorem to_map_string_equal_keys_rearranged {K V : Type} [LinearOrder K] [Printable K]
    [Printable V] (sort : (K × V → K × V → Bool) → List (K × V) → List (K × V))
    (hsort : StdSortContract sort key_less) (header indent : Str) (map : List (K × V)) :
    ∃ v : List (K × V),
      to_map_string sort header map indent =
        header ++ v.flatMap (fun p =>
          '\n' :: (indent ++
            (Printable.repr true p.1 ++ (':' :: ' ' :: Printable.repr true p.2)))) ∧
      v.Perm map ∧
      v.Pairwise (fun a b => a.1 ≤ b.1) ∧
      ∀ k : K,
        (v.filter (fun p => decide (p.1 = k))).Perm (map.filter (fun p => decide (p.1 = k))) :=
  ⟨sort key_less map, to_map_string_eq sort header indent map, (hsort map).1,
    (hsort map).2.imp (fun h => (key_less_eq_false _ _).mp h),
    fun _ => (hsort map).1.filter _⟩

/-- Witness for the amended C8: the map view `2: a`, `1: b`, `1: c` under insertion sort. -/
theorem to_map_string_equal_keys_rearranged_witness :
    ∃ v : List (Nat × Char),
      to_map_string insertion_sort "M:".toList [(2, 'a'), (1, 'b'), (1, 'c')] "  ".toList =
        "M:".toList ++ v.flatMap (fun p =>
          '\n' :: ("  ".toList ++
            (Printable.repr true p.1 ++ (':' :: ' ' :: Printable.repr true p.2)))) ∧
      v.Perm [(2, 'a'), (1, 'b'), (1, 'c')] ∧
      v.Pairwise (fun a b => a.1 ≤ b.1) ∧
      ∀ k : Nat,
        (v.filter (fun p => decide (p.1 = k))).Perm
          ([(2, 'a'), (1, 'b'), (1, 'c')].filter (fun p => decide (p.1 = k))) :=
  to_map_string_equal_keys_rearranged insertion_sort insertion_sort_conforms "M:".toList
    "  ".toList [(2, 'a'), (1, 'b'), (1, 'c')]

/-- C9: every string-returning operation of `FormatUtil` renders a boolean as the word
`true` or `false`, never as `1` or `0`: as the argument of `format_to_string` and
`formatln_to_string`, as an element given to `to_joined_string` and `to_header_string`,
and as key or value given to `to_unsorted_map_string` and `to_map_string`. -/
theorem booleans_rendered_as_words (b : Bool) (bs : List Bool)
    (delimiter header indent : Str) (map : List (Bool × Bool))
    (sort : (Bool × Bool → Bool × Bool → Bool) → List (Bool × Bool) → List (Bool × Bool)) :
    (format_to_string "{}".toList (Arg.of true) [] = "true".toList ∧
      format_to_string "{}".toList (Arg.of false) [] = "false".toList) ∧
    format_to_string token (Arg.of b) [] = boolWord b ∧
    formatln_to_string token (Arg.of b) [] = boolWord b ++ ['\n'] ∧
    to_joined_string (b :: bs) delimiter =
      some (delimiter.intercalate ((b :: bs).map boolWord)) ∧
    to_header_string header bs indent =
      header ++ bs.flatMap (fun e => '\n' :: (indent ++ boolWord e)) ∧
    to_unsorted_map_string header map indent =
      header ++ map.flatMap (fun p =>
        '\n' :: (indent ++ (boolWord p.1 ++ (':' :: ' ' :: boolWord p.2)))) ∧
    to_map_string sort header map indent =
      header ++ (sort key_less map).flatMap (fun p =>
        '\n' :: (indent ++ (boolWord p.1 ++ (':' :: ' ' :: boolWord p.2)))) ∧
    boolWord b ≠ "1".toList ∧ boolWord b ≠ "0".toList := by
  refine ⟨⟨by decide, by decide⟩, ?_, ?_, ?_, ?_, ?_, ?_, ?_, ?_⟩
  · simp [format_to_string, _format_recursive_single, OStream.put, OStream.write, OStream.str,
      OStream.fresh, OStream.setBoolalpha, Arg.of, Printable.repr]
  · simp [formatln_to_string, _format_recursive_single, OStream.put, OStream.write,
      OStream.str, OStream.fresh, OStream.setBoolalpha, OStream.endl, Arg.of, Printable.repr]
  · rw [to_joined_string_cons]
    rfl
  · rw [to_header_string_eq]
    rfl
  · rw [to_unsorted_map_string_eq]
    rfl
  · rw [to_map_string_eq]
    rfl
  · cases b <;> decide
  · cases b <;> decide

/-- Counterexample for C10: on a sink in its default formatting state `format_to` writes
`1` for `true`, while `format_to_string` returns `true`. -/
theorem format_to_default_sink_numeric :
    (format_to OStream.fresh "{}".toList (Arg.of true) []).buf = "1".toList ∧
      format_to_string "{}".toList (Arg.of true) [] = "true".toList ∧
      (format_to OStream.fresh "{}".toList (Arg.of true) []).buf ≠
        OStream.fresh.buf ++ format_to_string "{}".toList (Arg.of true) [] := by
  decide

/-- C10, amended: `format_to` renders a boolean as the sink's `boolalpha` flag says. On a
sink whose flag the caller has set it appends the word that `format_to_string` returns; on
a sink in its default formatting state it appends the numeric form `1` or `0`. -/
theorem format_to_bool_follows_sink_flag (b : Bool) (sink : OStream) :
    (format_to sink token (Arg.of b) []).buf =
      sink.buf ++
        (if sink.boolalpha then format_to_string token (Arg.of b) [] else boolDigit b) := by
  cases hflag : sink.boolalpha <;>
    simp [format_to, format_to_string, _format_recursive_single, OStream.put, OStream.write,
      OStream.str, OStream.fresh, OStream.setBoolalpha, Arg.of, Printable.repr, hflag]

end FormatUtil

end nova

/-! ## Auxiliary lemmas on the token scan and the recursion -/

namespace nova

theorem token_isPrefixOf_cons (c : Char) (t : Str) :
    token.isPrefixOf (c :: t) = true ↔ c = '{' ∧ ∃ rest, t = '}' :: rest := by
  cases t with
  | nil => simp [token, List.isPrefixOf]
  | cons d rest =>
    simp only [token, List.isPrefixOf, Bool.and_true, Bool.and_eq_true, beq_iff_eq]
    constructor
    · rintro ⟨h1, h2⟩
      exact ⟨h1.symm, rest, by rw [h2]⟩
    · rintro ⟨h1, r, h2⟩
      simp only [List.cons.injEq] at h2
      exact ⟨h1.symm, h2.1.symm⟩

/-- A string in which the scan finds no token holds no token. -/
theorem count_tokens_of_find_none (s : Str) (h : str_find token s = none) :
    count_tokens s = 0 := by
  induction s with
  | nil => rfl
  | cons c t ih =>
    rw [str_find] at h
    by_cases hp : token.isPrefixOf (c :: t) = true
    · simp [hp] at h
    · simp only [hp, if_false, Bool.false_eq_true, Option.map_eq_none'] at h
      simp [count_tokens, hp, ih h]

/-- Dropping the string through the token the scan finds removes exactly one token. -/
theorem count_tokens_of_find_some (s : Str) (i : Nat) (h : str_find token s = some i) :
    count_tokens s = count_tokens (s.drop (i + 2)) + 1 := by
  induction s generalizing i with
  | nil => simp [str_find, token, List.isPrefixOf] at h
  | cons c t ih =>
    rw [str_find] at h
    by_cases hp : token.isPrefixOf (c :: t) = true
    · simp only [hp, if_true, Option.some.injEq] at h
      obtain ⟨_, rest, hrest⟩ := (token_isPrefixOf_cons c t).mp hp
      subst hrest
      subst h
      have h2 : token.isPrefixOf ('}' :: rest) = false := by
        simp [token, List.isPrefixOf]
      simp [count_tokens, hp, h2]
      omega
    · simp only [hp, if_false, Bool.false_eq_true, Option.map_eq_some'] at h
      obtain ⟨j, hj, rfl⟩ := h
      simp [count_tokens, hp, ih j hj]

/-- The index the scan reports is a position at which the pattern occurs. -/
theorem str_find_some_prefix (pat s : Str) (i : Nat) (h : str_find pat s = some i) :
    pat <+: s.drop i := by
  induction s generalizing i with
  | nil =>
    rw [str_find] at h
    by_cases hp : pat.isPrefixOf [] = true
    · simp only [hp, if_true, Option.some.injEq] at h
      subst h
      exact List.isPrefixOf_iff_prefix.mp hp
    · simp [hp] at h
  | cons c t ih =>
    rw [str_find] at h
    by_cases hp : pat.isPrefixOf (c :: t) = true
    · simp only [hp, if_true, Option.some.injEq] at h
      subst h
      exact List.isPrefixOf_iff_prefix.mp hp
    · simp only [hp, if_false, Bool.false_eq_true, Option.map_eq_some'] at h
      obtain ⟨j, hj, rfl⟩ := h
      simpa using ih j hj

theorem str_find_of_isPrefixOf (pat s : Str) (h : pat.isPrefixOf s = true) :
    str_find pat s = some 0 := by
  cases s <;> simp [str_find, h]

theorem str_find_cons_of_not (pat : Str) (c : Char) (t : Str)
    (h : ¬ pat.isPrefixOf (c :: t) = true) :
    str_find pat (c :: t) = (str_find pat t).map (· + 1) := by
  rw [str_find, if_neg h]

/-- The scan finds an occurrence no later than any given one. -/
theorem str_find_le_of_occurrence (pat p q : Str) :
    ∃ i, i ≤ p.length ∧ str_find pat (p ++ pat ++ q) = some i := by
  induction p with
  | nil =>
    refine ⟨0, Nat.le_refl _, str_find_of_isPrefixOf _ _ ?_⟩
    exact List.isPrefixOf_iff_prefix.mpr ⟨q, by simp⟩
  | cons c p ih =>
    obtain ⟨i, hi, hfind⟩ := ih
    have hcons : (c :: p) ++ pat ++ q = c :: (p ++ pat ++ q) := rfl
    rw [hcons]
    by_cases hp : pat.isPrefixOf (c :: (p ++ pat ++ q)) = true
    · exact ⟨0, Nat.zero_le _, str_find_of_isPrefixOf _ _ hp⟩
    · refine ⟨i + 1, Nat.succ_le_succ hi, ?_⟩
      rw [str_find_cons_of_not _ _ _ hp, hfind]
      rfl

end nova

namespace nova

theorem copies_succ (c : Nat) (r : Str) : copies (c + 1) r = copies c r ++ r := by
  induction c with
  | zero => simp [copies]
  | succ c ih =>
    have h : copies (c + 1 + 1) r = r ++ copies (c + 1) r := by
      simp [copies, List.replicate_succ]
    have h1 : copies (c + 1) r = r ++ copies c r := by
      simp [copies, List.replicate_succ]
    rw [h, ih, ← List.append_assoc, ← h1, ih]

theorem copies_one (r : Str) : copies 1 r = r := by
  simp [copies]

namespace FormatUtil

/-- Exact result of one call of `_format_recursive`, for any stream and any string: with
`k` the number of tokens in `s` and `n` the number of arguments, the first `min k n`
tokens are replaced, the text after them is appended `min (k + 1) n` times, and that
text is what the string `s` holds on return. -/
theorem _format_recursive_exact (output : OStream) (s : Str) (first : Arg) (tail : List Arg) :
    _format_recursive output s first tail =
      (output.write
        (interleave output.boolalpha
            (split_tokens (min (count_tokens s) (tail.length + 1)) s).1 (first :: tail) ++
          copies (min (count_tokens s + 1) (tail.length + 1))
            (split_tokens (min (count_tokens s) (tail.length + 1)) s).2),
        (split_tokens (min (count_tokens s) (tail.length + 1)) s).2) := by
  induction tail generalizing output s first with
  | nil =>
    cases hfind : str_find token s with
    | none =>
      rw [_format_recursive_of_none _ _ _ _ hfind, count_tokens_of_find_none s hfind]
      simp [split_tokens, interleave, copies_one]
    | some i =>
      have hk := count_tokens_of_find_some s i hfind
      have hm : min (count_tokens s) ([] : List Arg).length.succ = 1 := by
        simp only [List.length_nil]; omega
      have hc : min (count_tokens s + 1) ([] : List Arg).length.succ = 1 := by
        simp only [List.length_nil]; omega
      simp only [Nat.succ_eq_add_one] at hm hc
      rw [hm, hc]
      simp [_format_recursive, hfind, split_tokens, interleave, copies_one, OStream.write,
        OStream.put, Printable.repr]
  | cons t ts ih =>
    cases hfind : str_find token s with
    | none =>
      rw [_format_recursive_of_none _ _ _ _ hfind, count_tokens_of_find_none s hfind]
      simp [split_tokens, interleave, copies_one]
    | some i =>
      have hk := count_tokens_of_find_some s i hfind
      have hm : min (count_tokens s) ((t :: ts).length + 1) =
          min (count_tokens (s.drop (i + 2))) (ts.length + 1) + 1 := by
        simp only [List.length_cons]; omega
      have hc : min (count_tokens s + 1) ((t :: ts).length + 1) =
          min (count_tokens (s.drop (i + 2)) + 1) (ts.length + 1) + 1 := by
        simp only [List.length_cons]; omega
      rw [hm, hc, copies_succ]
      rw [_format_recursive]
      simp only [hfind]
      rw [ih]
      simp [split_tokens, hfind, interleave, OStream.write, OStream.put, Printable.repr]

end FormatUtil
end nova

namespace nova

/-- Arguments whose text does not depend on `boolalpha` give the same interleaving under
either setting of the flag. -/
theorem interleave_flag (f g : Bool) (segs : List Str) (args : List Arg)
    (h : ∀ a ∈ args, a.repr f = a.repr g) :
    interleave f segs args = interleave g segs args := by
  induction segs generalizing args with
  | nil => simp [interleave]
  | cons seg segs ih =>
    cases args with
    | nil => simp [interleave]
    | cons a args =>
      have h1 := h a (List.mem_cons_self a args)
      have h2 := ih args (fun x hx => h x (List.mem_cons_of_mem a hx))
      simp only [interleave, List.zipWith_cons_cons, List.flatten_cons] at h2 ⊢
      rw [h1, h2]

/-- The string is rebuilt from the segments, the tokens between them and the rest. -/
theorem split_tokens_rebuild (m : Nat) (s : Str) :
    s = (split_tokens m s).1.flatMap (fun seg => seg ++ token) ++ (split_tokens m s).2 := by
  induction m generalizing s with
  | zero => simp [split_tokens]
  | succ m ih =>
    cases hfind : str_find token s with
    | none => simp [split_tokens, hfind]
    | some i =>
      obtain ⟨q, hq⟩ := str_find_some_prefix token s i hfind
      have hdrop : s.drop (i + 2) = q := by
        have h2 : s.drop (i + 2) = (s.drop i).drop 2 := by
          rw [List.drop_drop]
        rw [h2, ← hq]; simp [token]
      have hs : s = s.take i ++ (token ++ q) := by
        rw [hq]; exact (List.take_append_drop i s).symm
      have hrec := ih (s.drop (i + 2))
      simp only [split_tokens, hfind, List.flatMap_cons, List.append_assoc]
      rw [← hrec, hdrop]
      exact hs

/-- Cutting at `m` tokens yields `m` segments when the string holds at least `m` tokens. -/
theorem split_tokens_length (m : Nat) (s : Str) (h : m ≤ count_tokens s) :
    (split_tokens m s).1.length = m := by
  induction m generalizing s with
  | zero => simp [split_tokens]
  | succ m ih =>
    cases hfind : str_find token s with
    | none =>
      rw [count_tokens_of_find_none s hfind] at h
      omega
    | some i =>
      have hk := count_tokens_of_find_some s i hfind
      have := ih (s.drop (i + 2)) (by omega)
      simp [split_tokens, hfind, this]

theorem to_comma_string_loop_eq {α : Type} [Printable α] (d : Str) (o : OStream) (l : List α) :
    to_comma_string_loop d o l = FormatUtil.to_joined_string_loop d o l := by
  induction l generalizing o with
  | nil => simp [to_comma_string_loop, FormatUtil.to_joined_string_loop]
  | cons x it ih =>
    rw [to_comma_string_loop, FormatUtil.to_joined_string_loop]
    simp only [ih]

theorem _format_recursive_eq (output : OStream) (s : Str) (first : Arg) (tail : List Arg) :
    _format_recursive output s first tail = FormatUtil._format_recursive output s first tail := by
  induction tail generalizing output s first with
  | nil => rw [_format_recursive, FormatUtil._format_recursive]
  | cons t ts ih =>
    rw [_format_recursive, FormatUtil._format_recursive]
    simp only [ih]

theorem free_to_header_string_eq {α : Type} [Printable α] (header indent : Str)
    (container : List α) :
    to_header_string header container indent =
      header ++ container.flatMap (fun e => '\n' :: (indent ++ Printable.repr false e)) := by
  unfold to_header_string
  simp only []
  rw [foldl_lines (fun flag e => '\n' :: (indent ++ Printable.repr flag e))]
  · simp [OStream.write, OStream.str, OStream.fresh]
  · intro o x; simp [OStream.put, OStream.write, OStream.endl]

theorem free_to_map_string_eq {K V : Type} [LinearOrder K] [Printable K] [Printable V]
    (sort : (K × V → K × V → Bool) → List (K × V) → List (K × V))
    (header indent : Str) (map : List (K × V)) :
    to_map_string sort header map indent =
      header ++ (sort FormatUtil.key_less map).flatMap (fun p =>
        '\n' :: (indent ++
          (Printable.repr false p.1 ++ (':' :: ' ' :: Printable.repr false p.2)))) := by
  unfold to_map_string
  simp only []
  rw [foldl_lines (fun flag (p : K × V) =>
    '\n' :: (indent ++ (Printable.repr flag p.1 ++ (':' :: ' ' :: Printable.repr flag p.2))))]
  · simp [push_back_all, OStream.write, OStream.str, OStream.fresh]
  · intro o x; simp [OStream.put, OStream.write, OStream.endl]

namespace FormatUtil

/-- The counter added in `_format_recursive_depth` does not change what is computed, and
the count is the smaller of the number of tokens and the number of arguments after the
first. -/
theorem _format_recursive_depth_eq (output : OStream) (s : Str) (first : Arg)
    (tail : List Arg) :
    (_format_recursive_depth output s first tail).1 = _format_recursive output s first tail ∧
      (_format_recursive_depth output s first tail).2 = min (count_tokens s) tail.length := by
  induction tail generalizing output s first with
  | nil =>
    cases hfind : str_find token s <;>
      simp [_format_recursive_depth, _format_recursive, hfind]
  | cons t ts ih =>
    cases hfind : str_find token s with
    | none =>
      simp [_format_recursive_depth, _format_recursive, hfind,
        count_tokens_of_find_none s hfind]
    | some i =>
      have hk := count_tokens_of_find_some s i hfind
      rw [_format_recursive_depth, _format_recursive]
      simp only [hfind]
      obtain ⟨h1, h2⟩ := ih ((output.write (s.take i)).put first) (s.drop (i + 2)) t
      refine ⟨?_, ?_⟩
      · simp only [h1]
      · simp only [h2, List.length_cons]; omega

end FormatUtil
end nova

/-! ## The claims, continued -/

namespace nova

namespace FormatUtil

/-- C11: `formatln_to_string` returns what `format_to_string` returns followed by exactly
one line break, and `formatln_to` leaves the sink as `format_to` leaves it with one line
break appended (and the same flag). -/
theorem formatln_appends_line_break (sink : OStream) (t : Str) (first : Arg)
    (tail : List Arg) :
    formatln_to_string t first tail = format_to_string t first tail ++ ['\n'] ∧
      (formatln_to sink t first tail).buf = (format_to sink t first tail).buf ++ ['\n'] ∧
      (formatln_to sink t first tail).boolalpha = (format_to sink t first tail).boolalpha := by
  simp [formatln_to_string, format_to_string, formatln_to, format_to, OStream.endl,
    OStream.write, OStream.str]

/-- On a stream that writes at its end, and with arguments whose text does not depend on
`boolalpha`, `format_to` leaves the prior content followed by what `format_to_string`
returns. -/
theorem format_to_appends_of_append_stream (sink : OStream) (t : Str) (first : Arg)
    (tail : List Arg) (h : ∀ a ∈ first :: tail, a.repr false = a.repr true) :
    (format_to sink t first tail).buf = sink.buf ++ format_to_string t first tail ∧
      (format_to sink t first tail).boolalpha = sink.boolalpha := by
  have hflag : ∀ a ∈ first :: tail, a.repr sink.boolalpha = a.repr true := by
    intro a ha
    cases sink.boolalpha
    · exact h a ha
    · rfl
  simp only [format_to, format_to_string, _format_recursive_exact, OStream.write, OStream.str,
    OStream.fresh, OStream.setBoolalpha, List.nil_append]
  rw [interleave_flag _ _ _ _ hflag]
  exact ⟨rfl, trivial⟩

/-- A write to a sink whose put position is at the end of its content appends, and leaves
the put position at the end. -/
theorem sink_write_at_end (o : Sink) (s : Str) (hpos : o.pos = o.content.length) :
    (o.write s).content = o.content ++ s ∧ (o.write s).pos = (o.write s).content.length ∧
      (o.write s).boolalpha = o.boolalpha ∧ (o.write s).hex = o.hex := by
  simp [Sink.write, hpos]

/-- On a sink that writes at its end in the decimal base, `_format_recursive` does what it
does on the stream of the same content and flag. -/
theorem _format_recursive_sink_at_end (output : Sink) (s : Str) (first : SinkArg)
    (tail : List SinkArg) (hpos : output.pos = output.content.length)
    (hdec : output.hex = false) :
    (_format_recursive_sink output s first tail).1.toOStream =
        (_format_recursive output.toOStream s first.toArg (tail.map SinkArg.toArg)).1 ∧
      (_format_recursive_sink output s first tail).2 =
        (_format_recursive output.toOStream s first.toArg (tail.map SinkArg.toArg)).2 ∧
      (_format_recursive_sink output s first tail).1.pos =
        (_format_recursive_sink output s first tail).1.content.length ∧
      (_format_recursive_sink output s first tail).1.hex = false := by
  have hw : ∀ (o : Sink) (x : Str), o.pos = o.content.length → o.hex = false →
      (o.write x).toOStream = o.toOStream.write x ∧
        (o.write x).pos = (o.write x).content.length ∧ (o.write x).hex = false := by
    intro o x h1 h2
    obtain ⟨e1, e2, e3, e4⟩ := sink_write_at_end o x h1
    exact ⟨by simp [Sink.toOStream, OStream.write, e1, e3], e2, by rw [e4, h2]⟩
  have hp : ∀ (o : Sink) (a : SinkArg), o.pos = o.content.length → o.hex = false →
      (o.put a).toOStream = o.toOStream.put a.toArg ∧
        (o.put a).pos = (o.put a).content.length ∧ (o.put a).hex = false := by
    intro o a h1 h2
    obtain ⟨e1, e2, e3⟩ := hw o (a.repr o.boolalpha o.hex) h1 h2
    refine ⟨?_, e2, e3⟩
    rw [Sink.put, e1, h2]
    rfl
  induction tail generalizing output s first with
  | nil =>
    cases hfind : str_find token s with
    | none =>
      obtain ⟨e1, e2, e3⟩ := hw output s hpos hdec
      simp [_format_recursive_sink, _format_recursive, hfind, e1, e2, e3]
    | some i =>
      obtain ⟨a1, a2, a3⟩ := hw output (s.take i) hpos hdec
      obtain ⟨b1, b2, b3⟩ := hp (output.write (s.take i)) first a2 a3
      obtain ⟨c1, c2, c3⟩ := hw ((output.write (s.take i)).put first) (s.drop (i + 2)) b2 b3
      simp [_format_recursive_sink, _format_recursive, hfind, a1, b1, c1, c2, c3]
  | cons t ts ih =>
    cases hfind : str_find token s with
    | none =>
      obtain ⟨e1, e2, e3⟩ := hw output s hpos hdec
      simp [_format_recursive_sink, _format_recursive, hfind, e1, e2, e3]
    | some i =>
      obtain ⟨a1, a2, a3⟩ := hw output (s.take i) hpos hdec
      obtain ⟨b1, b2, b3⟩ := hp (output.write (s.take i)) first a2 a3
      obtain ⟨r1, r2, r3, r4⟩ := ih ((output.write (s.take i)).put first) (s.drop (i + 2)) t
        b2 b3
      obtain ⟨c1, c2, c3⟩ := hw _ (_format_recursive_sink
        ((output.write (s.take i)).put first) (s.drop (i + 2)) t ts).2 r3 r4
      rw [_format_recursive_sink, _format_recursive]
      simp only [hfind, List.map_cons]
      refine ⟨?_, ?_, c2, c3⟩
      · rw [c1, r1, r2, b1, a1]
      · rw [r2, b1, a1]

/-- Counterexample for C12: a sink constructed with the content `log: `, whose put position
is at its start, holds `abg: ` after `format_to(sink, "{}", "ab")`, not `log: ab`; and an
empty sink whose base field is `std::hex` holds `ff` after `format_to(sink, "{}", 255u)`,
while `format_to_string("{}", 255u)` is `255`. Neither argument is a boolean. -/
theorem format_to_sink_not_appended :
    (format_to_sink ⟨"log: ".toList, 0, false, false⟩ "{}".toList
        (SinkArg.ofStr "ab".toList) []).content = "abg: ".toList ∧
      "log: ".toList ++ format_to_string "{}".toList (SinkArg.ofStr "ab".toList).toArg [] =
        "log: ab".toList ∧
      (format_to_sink ⟨[], 0, false, true⟩ "{}".toList (SinkArg.ofNat 255) []).content =
        "ff".toList ∧
      format_to_string "{}".toList (SinkArg.ofNat 255).toArg [] = "255".toList := by
  decide

/-- C12, amended: the two output modes share one algorithm. For a sink whose put position
is at the end of its prior content and whose base field is decimal, whatever its
`boolalpha` flag, and arguments whose text does not depend on `boolalpha` (none is a
boolean), after `format_to` the sink holds its prior content followed by exactly what
`format_to_string` returns for the same template and arguments; its put position is again
at the end and its flags are unchanged. -/
theorem format_to_sink_appends_at_end (sink : Sink) (t : Str) (first : SinkArg)
    (tail : List SinkArg) (hpos : sink.pos = sink.content.length) (hdec : sink.hex = false)
    (hargs : ∀ a ∈ first :: tail, ∀ hex, a.repr false hex = a.repr true hex) :
    (format_to_sink sink t first tail).content =
        sink.content ++ format_to_string t first.toArg (tail.map SinkArg.toArg) ∧
      (format_to_sink sink t first tail).pos = (format_to_sink sink t first tail).content.length ∧
      (format_to_sink sink t first tail).boolalpha = sink.boolalpha ∧
      (format_to_sink sink t first tail).hex = false := by
  obtain ⟨h1, _, h3, h4⟩ := _format_recursive_sink_at_end sink t first tail hpos hdec
  have hargs2 : ∀ a ∈ first.toArg :: tail.map SinkArg.toArg, a.repr false = a.repr true := by
    intro a ha
    simp only [List.mem_cons, List.mem_map] at ha
    rcases ha with rfl | ⟨b, hb, rfl⟩
    · exact hargs first (List.mem_cons_self _ _) false
    · exact hargs b (List.mem_cons_of_mem _ hb) false
  obtain ⟨g1, g2⟩ := format_to_appends_of_append_stream sink.toOStream t first.toArg
    (tail.map SinkArg.toArg) hargs2
  have hbuf : (format_to_sink sink t first tail).content =
      (format_to sink.toOStream t first.toArg (tail.map SinkArg.toArg)).buf := by
    have := congrArg OStream.buf h1
    simpa [format_to_sink, format_to, Sink.toOStream] using this
  have hflag : (format_to_sink sink t first tail).boolalpha =
      (format_to sink.toOStream t first.toArg (tail.map SinkArg.toArg)).boolalpha := by
    have := congrArg OStream.boolalpha h1
    simpa [format_to_sink, format_to, Sink.toOStream] using this
  refine ⟨?_, h3, ?_, h4⟩
  · rw [hbuf, g1]; rfl
  · rw [hflag, g2]; rfl

/-- Witness for the amended C12: a sink holding `log: ` with its put position at the end,
the template `{}-{}!` and the arguments `a` and `7`. -/
theorem format_to_sink_appends_at_end_witness :
    (format_to_sink ⟨"log: ".toList, 5, false, false⟩ "{}-{}!".toList
        (SinkArg.ofStr "a".toList) [SinkArg.ofNat 7]).content =
      "log: ".toList ++ format_to_string "{}-{}!".toList (SinkArg.ofStr "a".toList).toArg
        ([SinkArg.ofNat 7].map SinkArg.toArg) :=
  (format_to_sink_appends_at_end ⟨"log: ".toList, 5, false, false⟩ "{}-{}!".toList
    (SinkArg.ofStr "a".toList) [SinkArg.ofNat 7] (by decide) rfl (by
      intro a ha hex
      simp only [List.mem_cons, List.mem_singleton, List.not_mem_nil, or_false] at ha
      rcases ha with rfl | rfl <;> rfl)).1

end FormatUtil

end nova

namespace nova

/-- Counterexample for C13: for a boolean argument or element the free functions of
`format_util.hpp` write the numeric form, the members of `FormatUtil` the word. -/
theorem free_functions_render_bool_numeric :
    format_to_string "{}".toList (Arg.of true) [] = "1".toList ∧
      FormatUtil.format_to_string "{}".toList (Arg.of true) [] = "true".toList ∧
      to_comma_string [true, false] ", ".toList = some "1, 0".toList ∧
      FormatUtil.to_joined_string [true, false] ", ".toList = some "true, false".toList := by
  decide

/-- C13, amended: the free functions of `format_util.hpp` return the same strings as the
members of `FormatUtil` whenever no argument, element, key or value has a text that
depends on `boolalpha` (none of them is a boolean): `format_to_string`,
`formatln_to_string`, `to_comma_string` against `to_joined_string`, `to_header_string` and
`to_map_string`. -/
theorem free_functions_agree_without_booleans {α K V : Type} [Printable α] [LinearOrder K]
    [Printable K] [Printable V]
    (sort : (K × V → K × V → Bool) → List (K × V) → List (K × V))
    (t : Str) (first : Arg) (tail : List Arg) (container : List α)
    (delimiter header indent : Str) (map : List (K × V))
    (hargs : ∀ a ∈ first :: tail, a.repr false = a.repr true)
    (hα : ∀ e : α, Printable.repr false e = Printable.repr true e)
    (hK : ∀ k : K, Printable.repr false k = Printable.repr true k)
    (hV : ∀ v : V, Printable.repr false v = Printable.repr true v) :
    format_to_string t first tail = FormatUtil.format_to_string t first tail ∧
      formatln_to_string t first tail = FormatUtil.formatln_to_string t first tail ∧
      to_comma_string container delimiter =
        FormatUtil.to_joined_string container delimiter ∧
      to_header_string header container indent =
        FormatUtil.to_header_string header container indent ∧
      to_map_string sort header map indent =
        FormatUtil.to_map_string sort header map indent := by
  have hrec : (FormatUtil._format_recursive OStream.fresh t first tail).1.buf =
      (FormatUtil._format_recursive OStream.fresh.setBoolalpha t first tail).1.buf := by
    simp only [FormatUtil._format_recursive_exact, OStream.write, OStream.fresh,
      OStream.setBoolalpha]
    rw [interleave_flag false true _ _ hargs]
  refine ⟨?_, ?_, ?_, ?_, ?_⟩
  · simp only [format_to_string, FormatUtil.format_to_string, _format_recursive_eq,
      OStream.str]
    exact hrec
  · simp only [formatln_to_string, FormatUtil.formatln_to_string, _format_recursive_eq,
      OStream.str, OStream.endl, OStream.write]
    rw [hrec]
  · cases container with
    | nil => simp [to_comma_string, FormatUtil.to_joined_string, to_comma_string_loop,
        FormatUtil.to_joined_string_loop]
    | cons x it =>
      rw [FormatUtil.to_joined_string_cons, to_comma_string, to_comma_string_loop_eq,
        FormatUtil.to_joined_string_loop_cons]
      have hfun : (Printable.repr false : α → Str) = Printable.repr true := funext hα
      simp [OStream.fresh, hfun]
  · rw [free_to_header_string_eq, FormatUtil.to_header_string_eq]
    have hfun : (Printable.repr false : α → Str) = Printable.repr true := funext hα
    simp only [hfun]
  · rw [free_to_map_string_eq, FormatUtil.to_map_string_eq]
    have hfunK : (Printable.repr false : K → Str) = Printable.repr true := funext hK
    have hfunV : (Printable.repr false : V → Str) = Printable.repr true := funext hV
    simp only [hfunK, hfunV]

/-- Witness for the amended C13: string and number arguments, a container of numbers and
a map from characters to numbers, both under the header `M:`. -/
theorem free_functions_agree_without_booleans_witness :
    format_to_string "{} and {}".toList (Arg.of "a".toList) [Arg.of (2 : Nat)] =
        FormatUtil.format_to_string "{} and {}".toList (Arg.of "a".toList)
          [Arg.of (2 : Nat)] ∧
      formatln_to_string "{} and {}".toList (Arg.of "a".toList) [Arg.of (2 : Nat)] =
        FormatUtil.formatln_to_string "{} and {}".toList (Arg.of "a".toList)
          [Arg.of (2 : Nat)] ∧
      to_comma_string [1, 2, 3] ", ".toList =
        FormatUtil.to_joined_string [1, 2, 3] ", ".toList ∧
      to_header_string "M:".toList [1, 2, 3] "  ".toList =
        FormatUtil.to_header_string "M:".toList [1, 2, 3] "  ".toList ∧
      to_map_string insertion_sort "M:".toList [('b', 2), ('a', 1)] "  ".toList =
        FormatUtil.to_map_string insertion_sort "M:".toList [('b', 2), ('a', 1)]
          "  ".toList :=
  free_functions_agree_without_booleans insertion_sort "{} and {}".toList
    (Arg.of "a".toList) [Arg.of (2 : Nat)] [1, 2, 3] ", ".toList "M:".toList
    "  ".toList [('b', 2), ('a', 1)]
    (by
      intro a ha
      simp only [List.mem_cons, List.mem_singleton, List.not_mem_nil, or_false] at ha
      rcases ha with rfl | rfl <;> rfl)
    (fun _ => rfl) (fun _ => rfl) (fun _ => rfl)

namespace FormatUtil

/-- C15: for any `std::sort` that meets the standard's contract, the lines written by
`to_map_string` after the header are those of a sequence `v` that is a permutation of the
pairs the map view yielded and whose keys are in non-decreasing order; each line is a line
break, the indent, the key's text, `: ` and the value's text. -/
theorem to_map_string_sorted_permutation {K V : Type} [LinearOrder K] [Printable K]
    [Printable V] (sort : (K × V → K × V → Bool) → List (K × V) → List (K × V))
    (hsort : StdSortContract sort key_less) (header indent : Str) (map : List (K × V)) :
    ∃ v : List (K × V),
      v.Perm map ∧
      v.Pairwise (fun a b => a.1 ≤ b.1) ∧
      to_map_string sort header map indent =
        header ++ (v.map (fun p =>
          ['\n'] ++ indent ++ Printable.repr true p.1 ++ [':', ' '] ++
            Printable.repr true p.2)).flatten :=
  ⟨sort key_less map, (hsort map).1,
    (hsort map).2.imp (fun h => (key_less_eq_false _ _).mp h),
    by rw [to_map_string_eq]; simp [List.flatMap]⟩

/-- Witness for C15: the pairs `b:2`, `a:1` under insertion sort. -/
theorem to_map_string_sorted_permutation_witness :
    ∃ v : List (Char × Nat),
      v.Perm [('b', 2), ('a', 1)] ∧
      v.Pairwise (fun a b => a.1 ≤ b.1) ∧
      to_map_string insertion_sort "M:".toList [('b', 2), ('a', 1)] "  ".toList =
        "M:".toList ++ (v.map (fun p =>
          ['\n'] ++ "  ".toList ++ Printable.repr true p.1 ++ [':', ' '] ++
            Printable.repr true p.2)).flatten :=
  to_map_string_sorted_permutation insertion_sort insertion_sort_conforms "M:".toList
    "  ".toList [('b', 2), ('a', 1)]

/-- C16: `to_unsorted_map_string` equals `to_header_string` applied to the same header and
indent and to the lines `repr(k) ++ ": " ++ repr(v)`, one per pair in the map view's
iteration order. -/
theorem to_unsorted_map_string_eq_header {K V : Type} [Printable K] [Printable V]
    (header indent : Str) (map : List (K × V)) :
    to_unsorted_map_string header map indent =
      to_header_string header
        (map.map (fun p => Printable.repr true p.1 ++ [':', ' '] ++ Printable.repr true p.2))
        indent := by
  rw [to_unsorted_map_string_eq, to_header_string_eq]
  simp [List.flatMap, List.map_map, Function.comp_def, Printable.repr]

end FormatUtil

end nova

namespace nova

namespace FormatUtil

/-- C17: `_format_recursive` is total, and the number of nested self-invocations one call
makes is at most the number of tokens in the string, whatever the number of arguments;
it is the smaller of the number of tokens and the number of arguments after the first.
The counter does not change the stream and the string computed. -/
theorem _format_recursive_depth_le_tokens (output : OStream) (s : Str) (first : Arg)
    (tail : List Arg) :
    (_format_recursive_depth output s first tail).1 = _format_recursive output s first tail ∧
      (_format_recursive_depth output s first tail).2 ≤ count_tokens s ∧
      (_format_recursive_depth output s first tail).2 = min (count_tokens s) tail.length := by
  obtain ⟨h1, h2⟩ := _format_recursive_depth_eq output s first tail
  refine ⟨h1, ?_, h2⟩
  rw [h2]
  exact Nat.min_le_left _ _

/-- C18: exact output of the formatter. With `k` the number of tokens of the template,
`n` the number of arguments and `m = min k n`, the template is cut at its first `m`
tokens into the texts `seg₁ … seg_m` before them and the text `r` after the `m`-th; the
result is `seg₁ repr(a₁) … seg_m repr(a_m)` followed by `min (k + 1) n` copies of `r`.
The cut has exactly `m` segments and rebuilds the template. -/
theorem format_to_string_exact (t : Str) (first : Arg) (tail : List Arg) :
    format_to_string t first tail =
        interleave true (split_tokens (min (count_tokens t) (tail.length + 1)) t).1
            (first :: tail) ++
          copies (min (count_tokens t + 1) (tail.length + 1))
            (split_tokens (min (count_tokens t) (tail.length + 1)) t).2 ∧
      (split_tokens (min (count_tokens t) (tail.length + 1)) t).1.length =
        min (count_tokens t) (tail.length + 1) ∧
      t = (split_tokens (min (count_tokens t) (tail.length + 1)) t).1.flatMap
            (fun seg => seg ++ token) ++
          (split_tokens (min (count_tokens t) (tail.length + 1)) t).2 := by
  refine ⟨?_, split_tokens_length _ _ (Nat.min_le_left _ _), split_tokens_rebuild _ _⟩
  simp [format_to_string, _format_recursive_exact, OStream.write, OStream.str, OStream.fresh,
    OStream.setBoolalpha]

/-- C19: with exactly one argument only the leftmost token is replaced. If the template is
`p ++ "{}" ++ q` and no occurrence of the token starts before the end of `p`, the result is
`p ++ repr(a) ++ q`, with `q` written once and as it stands; a template without a token is
returned unchanged. -/
theorem format_to_string_one_argument (t p q : Str) (a : Arg) :
    (t = p ++ token ++ q →
        (∀ p' q', t = p' ++ token ++ q' → p.length ≤ p'.length) →
        format_to_string t a [] = p ++ a.repr true ++ q) ∧
      (¬ token <:+: t → format_to_string t a [] = t) := by
  constructor
  · intro ht hleft
    obtain ⟨i, hi, hfind⟩ := str_find_le_of_occurrence token p q
    rw [← ht] at hfind
    obtain ⟨q', hq'⟩ := str_find_some_prefix token t i hfind
    have hcut : t = t.take i ++ token ++ q' := by
      rw [List.append_assoc, hq']; exact (List.take_append_drop i t).symm
    have hlen := hleft (t.take i) q' hcut
    have hi2 : i = p.length := by
      have : (t.take i).length ≤ i := by simp [List.length_take]
      omega
    subst hi2
    have htake : t.take p.length = p := by
      rw [ht, List.append_assoc]; exact List.take_left' rfl
    have hdrop : t.drop (p.length + 2) = q := by
      rw [ht]; exact List.drop_left' (by simp [token])
    simp [format_to_string, _format_recursive, hfind, htake, hdrop, OStream.write,
      OStream.put, OStream.str, OStream.fresh, OStream.setBoolalpha, Printable.repr]
  · intro h
    have hn : str_find token t = none := (str_find_eq_none_iff token t).mpr h
    simp [format_to_string, _format_recursive_of_none _ _ _ _ hn, OStream.write, OStream.str,
      OStream.fresh, OStream.setBoolalpha]

/-- Witness for C19: the template `a{}b{}c`, whose leftmost token follows `a`, and the
template `hi`, which has none. -/
theorem format_to_string_one_argument_witness :
    format_to_string "a{}b{}c".toList (Arg.of "x".toList) [] = "axb{}c".toList ∧
      format_to_string "hi".toList (Arg.of "x".toList) [] = "hi".toList :=
  ⟨(format_to_string_one_argument "a{}b{}c".toList "a".toList "b{}c".toList
      (Arg.of "x".toList)).1 rfl
      (by
        intro p' q' h
        cases p' with
        | nil => exact absurd h (by simp [token])
        | cons c p'' => simp),
   (format_to_string_one_argument "hi".toList [] [] (Arg.of "x".toList)).2 (by decide)⟩

/-- C20: substituted text is never rescanned. Which parts of the template are replaced, and
what is written after them, is fixed by the template and the number of arguments alone: the
texts of the arguments are copied into the gaps as they stand, whatever they contain. In
particular the template `{} {}` with arguments `a` and `b` gives `repr(a) repr(b)` separated
by a blank, also when `repr(a)` is `{}`. -/
theorem substituted_text_not_rescanned (t : Str) (n : Nat) (a b : Arg) :
    (∃ (segs : List Str) (r : Str) (c : Nat), ∀ (first : Arg) (tail : List Arg),
        tail.length = n →
          format_to_string t first tail = interleave true segs (first :: tail) ++ copies c r) ∧
      format_to_string "{} {}".toList a [b] = a.repr true ++ [' '] ++ b.repr true ∧
      format_to_string "{} {}".toList (Arg.of "{}".toList) [Arg.of "x".toList] =
        "{} x".toList := by
  refine ⟨⟨(split_tokens (min (count_tokens t) (n + 1)) t).1,
      (split_tokens (min (count_tokens t) (n + 1)) t).2,
      min (count_tokens t + 1) (n + 1), ?_⟩, ?_, by decide⟩
  · intro first tail hlen
    subst hlen
    simp [format_to_string, _format_recursive_exact, OStream.write, OStream.str, OStream.fresh,
      OStream.setBoolalpha]
  · have hc : count_tokens ['{', '}', ' ', '{', '}'] = 2 := by decide
    have hs : split_tokens 2 ['{', '}', ' ', '{', '}'] = ([[], [' ']], []) := by decide
    simp [format_to_string, _format_recursive_exact, hc, hs, interleave, copies,
      OStream.write, OStream.str, OStream.fresh, OStream.setBoolalpha]

end FormatUtil

end nova
